import Mathlib

/-!
Shallow embedding of the gateway daemon in `tools/rpi/ahoy.py`, covering the
command queue, the command-channel listener `mqtt_on_command`, the per-inverter
poll logic of `poll_inverter` (payload choice and bounded transaction retry),
the status publisher `mqtt_send_status`, the main-loop sleep, the interrupt
handler, and the startup sequence of the `__main__` block.

External collaborators (the `hoymiles` protocol library, the radio driver and
the message-bus client) are not reimplemented: their primitives appear as
function parameters (`frame_payload`, `set_time_payload`, the per-attempt
receive scripts) or as abstract events, exactly as the script consumes them.

Python semantics that matter here and are modelled faithfully:
* an unmatched topic in `mqtt_on_command` leaves the local `inverter_ser`
  unassigned, so the following truthiness test raises `UnboundLocalError`;
* `re.match` with an anchored pattern also accepts a single trailing newline,
  because the dollar anchor matches just before a final newline;
* `bytes.fromhex` skips ASCII whitespace and raises `ValueError` on an odd
  number of hex digits or a non-hex character;
* indexing an empty `bytes` object raises `IndexError`.
Raised exceptions are recorded in an `exn` field; the queue state they leave
behind is the unmodified one.
-/

namespace Ahoy

/-- One Python `bytes` value, as its list of byte values. -/
abbrev Bytes := List Nat

/-- The global `command_queue` dict: inverter serial (as a string) to the list
of pending framed payloads, head first. -/
abbrev CommandQueues := String → List Bytes

/-- Lower-case hex digit character for a nibble, as produced by the Python
format string used in `mqtt_on_command` (format code for zero-padded hex). -/
def hexDigitChar (n : Nat) : Char :=
  if n < 10 then Char.ofNat (48 + n) else Char.ofNat (87 + n)

/-- The time macro expansion text: `struct.pack` of the current integer time as
4 big-endian bytes, hexlified to 8 lower-case digits, most significant first. -/
def time_hex (t : Nat) : List Char :=
  (List.range 8).map (fun i => hexDigitChar (t % 2 ^ 32 / 16 ^ (7 - i) % 16))

/-- Python `str.replace` specialised to the fixed 8-character pattern of `t`
characters: leftmost, non-overlapping replacement by `repl`. -/
def expand_t (repl : List Char) : List Char → List Char
  | 't' :: 't' :: 't' :: 't' :: 't' :: 't' :: 't' :: 't' :: rest => repl ++ expand_t repl rest
  | c :: rest => c :: expand_t repl rest
  | [] => []

/-- The listener's message preprocessing: the utf-8 text of the message payload,
lower-cased, with every `tttttttt` token expanded to the current time. -/
def expand_message (msg : String) (t : Nat) : List Char :=
  expand_t (time_hex t) (msg.toList.map Char.toLower)

/-- Membership in the character class of the validation pattern:
lower-case `a`..`f` or a decimal digit. -/
def isHexChar (c : Char) : Bool :=
  decide ((48 ≤ c.toNat ∧ c.toNat ≤ 57) ∨ (97 ≤ c.toNat ∧ c.toNat ≤ 102))

/-- ASCII whitespace, as skipped by Python `bytes.fromhex`. -/
def isSpaceChar (c : Char) : Bool :=
  decide (c.toNat = 32 ∨ c.toNat = 9 ∨ c.toNat = 10 ∨ c.toNat = 13 ∨ c.toNat = 11 ∨ c.toNat = 12)

/-- Numeric value of a lower-case hex digit character. -/
def hexVal (c : Char) : Nat :=
  if c.toNat ≤ 57 then c.toNat - 48 else c.toNat - 87

/-- Python `re.match` of the anchored all-hex pattern against the whole
message: a non-empty run of hex characters spanning the string, where the
dollar anchor also matches just before a single trailing newline. -/
def regex_hex_match (l : List Char) : Bool :=
  (!l.isEmpty && l.all isHexChar) ||
    (decide (l.getLast? = some (Char.ofNat 10)) && !l.dropLast.isEmpty && l.dropLast.all isHexChar)

/-- Decode consecutive pairs of hex digits to bytes; `none` models the
`ValueError` raised on an odd digit count or a non-hex character. -/
def hexPairs : List Char → Option Bytes
  | [] => some []
  | [_] => none
  | a :: b :: rest =>
    if isHexChar a && isHexChar b then
      (hexPairs rest).map (fun l => (16 * hexVal a + hexVal b) :: l)
    else none

/-- Python `bytes.fromhex`: ASCII whitespace is skipped, then the digit pairs
are decoded. -/
def bytes_fromhex (l : List Char) : Option Bytes :=
  hexPairs (l.filter (fun c => !isSpaceChar c))

/-- Resolve a topic through the `mqtt_command_topic_subs` table: the serial of
the first pair whose topic component equals the message topic. -/
def lookup_sub (subs : List (String × String)) (topic : String) : Option String :=
  (subs.find? (fun item => item.2 == topic)).map (fun item => item.1)

/-- Result of one listener invocation: the command queues afterwards, and the
uncaught exception escaping the handler, if any. -/
structure CmdEffect where
  queues : CommandQueues
  exn : Option String

/-- The tail of `mqtt_on_command` after validation: the result of
`bytes.fromhex`, the index access to the first byte, the marker test, and the
enqueue of the re-framed remainder. -/
def enqueue_decoded (frame_payload : Bytes → Bytes) (qs : CommandQueues) (ser : String) :
    Option Bytes → CmdEffect
  | none => ⟨qs, some "ValueError"⟩
  | some [] => ⟨qs, some "IndexError"⟩
  | some (b :: rest) =>
    if b = 0x80 then
      ⟨fun s => if s = ser then qs s ++ [frame_payload rest] else qs s, none⟩
    else ⟨qs, none⟩

/-- `mqtt_on_command`. `frame_payload` is the external `hoymiles.frame_payload`
primitive, `t` the current integer time. An unmatched topic logs and then hits
the truthiness test on the never-assigned local `inverter_ser`, raising
`UnboundLocalError`; a falsy (empty) serial skips the body; otherwise the
lower-cased, macro-expanded text is validated and decoded. -/
def mqtt_on_command (frame_payload : Bytes → Bytes) (subs : List (String × String))
    (qs : CommandQueues) (topic : String) (msg : String) (t : Nat) : CmdEffect :=
  match lookup_sub subs topic with
  | none => ⟨qs, some "UnboundLocalError"⟩
  | some inverter_ser =>
    if inverter_ser = "" then ⟨qs, none⟩
    else if (expand_message msg t).length < 2048 ∧ (expand_message msg t).length % 2 = 0 ∧
        regex_hex_match (expand_message msg t) = true then
      enqueue_decoded frame_payload qs inverter_ser (bytes_fromhex (expand_message msg t))
    else ⟨qs, none⟩

/-- Head of `poll_inverter`: pop the queue head if the queue is non-empty, else
use the synthesized `compose_set_time_payload` default. Returns the payload
used for this cycle and the queue left behind. -/
def poll_next_payload : List Bytes → Bytes → Bytes × List Bytes
  | [], set_time_payload => (set_time_payload, [])
  | p :: rest, _ => (p, rest)

/-- `n` consecutive poll cycles for one inverter: the payloads used, in order,
and the final queue. -/
def poll_cycles (set_time_payload : Bytes) : Nat → List Bytes → List Bytes × List Bytes
  | 0, q => ([], q)
  | n + 1, q =>
    let step := poll_next_payload q set_time_payload
    let later := poll_cycles set_time_payload n step.2
    (step.1 :: later.1, later.2)

/-- Outcome of one `com.get_payload` call inside the receive loop: the payload,
or the exception that is caught and logged. -/
abbrev GetPayloadOutcome := Except String Bytes

/-- The inner receive loop: each list element is the `get_payload` outcome of
one iteration in which `com.rxtx` returned a continuation signal; the list ends
when the signal goes false. Returns the response variable (last successful
extraction) and whether `payload_ttl` was zeroed by a success. -/
def rx_inner : List GetPayloadOutcome → Option Bytes → Bool → Option Bytes × Bool
  | [], resp, succ => (resp, succ)
  | Except.ok p :: rest, _, _ => rx_inner rest (some p) true
  | Except.error _ :: rest, resp, succ => rx_inner rest resp succ

/-- The retry loop of `poll_inverter`: `script i` is the receive activity of
transaction attempt `i`; the arguments are the next attempt index and the
remaining `payload_ttl`. Returns the final response and the number of attempts
executed. Each iteration decrements the counter, runs one transaction, and a
successful extraction zeroes the counter so the loop exits. -/
def retry_transactions (script : Nat → List GetPayloadOutcome) : Nat → Nat → Option Bytes × Nat
  | _, 0 => (none, 0)
  | i, t + 1 =>
    let att := rx_inner (script i) none false
    if att.2 then (att.1, 1)
    else
      let later := retry_transactions script (i + 1) t
      (later.1, later.2 + 1)

/-- The sleep at the bottom of the main loop, guarded by the truthiness of the
configured interval: the code sleeps `now % loop_interval` seconds; `none`
means no sleep happens. -/
def loop_sleep (now loop_interval : Nat) : Option Nat :=
  if loop_interval ≠ 0 then some (now % loop_interval) else none

/-- One AC phase record of a decoded status response. -/
structure PhaseRec where
  voltage : Rat
  current : Rat
  power : Rat

/-- One DC string record of a decoded status response. -/
structure StringRec where
  voltage : Rat
  current : Rat
  power : Rat
  energy_total : Rat
  energy_daily : Rat

/-- A decoded status response dictionary, as consumed by `mqtt_send_status`. -/
structure StatusData where
  phases : List PhaseRec
  strings : List StringRec
  frequency : Rat
  temperature : Rat

/-- Topic-root resolution of `mqtt_send_status`: a falsy (absent or empty)
per-inverter topic falls back to the default root. -/
def resolve_topic (inverter_ser : String) (topic : Option String) : String :=
  match topic with
  | none => "hoymiles/" ++ inverter_ser
  | some s => if s = "" then "hoymiles/" ++ inverter_ser else s

/-- The AC-phase publishes: power, voltage, current per phase, indexed from
`i`. -/
def phase_publishes (tp : String) : Nat → List PhaseRec → List (String × Rat)
  | _, [] => []
  | i, p :: rest =>
    (tp ++ "/emeter/" ++ toString i ++ "/power", p.power) ::
    (tp ++ "/emeter/" ++ toString i ++ "/voltage", p.voltage) ::
    (tp ++ "/emeter/" ++ toString i ++ "/current", p.current) ::
    phase_publishes tp (i + 1) rest

/-- The DC-string publishes: total (cumulative energy divided by 1000), power,
voltage, current per string, indexed from `i`. -/
def string_publishes (tp : String) : Nat → List StringRec → List (String × Rat)
  | _, [] => []
  | i, s :: rest =>
    (tp ++ "/emeter-dc/" ++ toString i ++ "/total", s.energy_total / 1000) ::
    (tp ++ "/emeter-dc/" ++ toString i ++ "/power", s.power) ::
    (tp ++ "/emeter-dc/" ++ toString i ++ "/voltage", s.voltage) ::
    (tp ++ "/emeter-dc/" ++ toString i ++ "/current", s.current) ::
    string_publishes tp (i + 1) rest

/-- `mqtt_send_status`: the ordered list of publish calls (topic, value) made
for one decoded status record. -/
def mqtt_send_status (inverter_ser : String) (topic : Option String) (data : StatusData) :
    List (String × Rat) :=
  phase_publishes (resolve_topic inverter_ser topic) 0 data.phases ++
    string_publishes (resolve_topic inverter_ser topic) 0 data.strings ++
    [(resolve_topic inverter_ser topic ++ "/frequency", data.frequency),
     (resolve_topic inverter_ser topic ++ "/temperature", data.temperature)]

/-- Environment events for the main loop inside the `try` block: either one
full loop body runs to completion, or a `KeyboardInterrupt` is delivered
somewhere during it. -/
inductive MainEvent where
  | cycle
  | interrupt
deriving DecidableEq

/-- Observable actions of the process around the main loop. -/
inductive MainAction where
  | poll
  | sleepAction
  | powerDown
  | sysExit
deriving DecidableEq

/-- The unbounded main loop inside `try`, with its handler for
`KeyboardInterrupt`: the first interrupt transfers control to the handler,
which powers the radio down and then exits. An event list that ends without an
interrupt models a still-running process. -/
def run_main (loop_interval : Nat) : List MainEvent → List MainAction
  | [] => []
  | MainEvent.cycle :: rest =>
    MainAction.poll ::
      ((if loop_interval ≠ 0 then [MainAction.sleepAction] else []) ++ run_main loop_interval rest)
  | MainEvent.interrupt :: _ => [MainAction.powerDown, MainAction.sysExit]

/-- Per-inverter message-bus configuration. -/
structure InvMqttCfg where
  topic : Option String
  send_raw_enabled : Bool

/-- One configured inverter. -/
structure Inverter where
  serial : String
  disabled : Bool
  mqtt : InvMqttCfg

/-- Message-bus connection configuration (only the flag the claims need). -/
structure MqttCfg where
  disabled : Bool

/-- The `ahoy` section of the configuration. -/
structure AhoyConfig where
  mqtt : MqttCfg
  dtu_serial : String
  inverters : List Inverter
  interval : Nat

/-- The state the main block has built when it reaches its poll loop. -/
structure StartedState where
  has_mqtt_client : Bool
  queues : CommandQueues
  subs : List (String × String)
  loop_interval : Nat

/-- The per-inverter startup loop: create the (empty) command queue for every
configured inverter, and for each inverter with the raw-command flag set,
subscribe its command topic. With no bus client (`has_client = false`, i.e.
the bus was disabled), the subscribe call dereferences `None` and raises. -/
def setup_inverters (has_client : Bool) : List Inverter → CommandQueues →
    List (String × String) → Except String (CommandQueues × List (String × String))
  | [], qs, subs => Except.ok (qs, subs)
  | inv :: rest, qs, subs =>
    let qs2 : CommandQueues := fun s => if s = inv.serial then [] else qs s
    if inv.mqtt.send_raw_enabled then
      if has_client then
        setup_inverters has_client rest qs2
          (subs ++ [(inv.serial, inv.mqtt.topic.getD ("hoymiles/" ++ inv.serial) ++ "/command")])
      else Except.error "AttributeError: NoneType object has no attribute subscribe"
    else setup_inverters has_client rest qs2 subs

/-- The startup sequence of the main block: a bus client is created unless the
bus is disabled, the radio is opened (failure raises), then the inverter loop
runs. The returned state is what the poll loop starts from; an error means the
process died before the poll loop. -/
def startup (radio_ok : Bool) (cfg : AhoyConfig) : Except String StartedState :=
  if radio_ok = false then Except.error "RuntimeError: cannot open radio"
  else
    (setup_inverters (!cfg.mqtt.disabled) cfg.inverters (fun _ => []) []).map
      (fun p => ⟨!cfg.mqtt.disabled, p.1, p.2, cfg.interval⟩)

/-- An all-empty queue table, for concrete instantiations. -/
def q0 : CommandQueues := fun _ => []

/-- A one-entry subscription table, for concrete instantiations. -/
def subs1 : List (String × String) := [("11", "hoymiles/11/command")]

/-- A receive script whose first attempt extracts a payload at once. -/
def script1 : Nat → List GetPayloadOutcome := fun _ => [Except.ok [1]]

/-- A concrete decoded status record with 3 phases and 2 DC strings. -/
def dEx : StatusData :=
  { phases := [⟨230, 1, 230⟩, ⟨231, 1, 231⟩, ⟨229, 1, 229⟩]
    strings := [⟨35, 2, 70, 12000, 100⟩, ⟨36, 2, 72, 13000, 110⟩]
    frequency := 50
    temperature := 21 }

/-- A configuration with the bus disabled and one raw-command-enabled
inverter. -/
def cfg1 : AhoyConfig :=
  { mqtt := ⟨true⟩
    dtu_serial := "99"
    inverters := [⟨"11", false, ⟨none, true⟩⟩]
    interval := 1 }

/-- A hex character is not whitespace. -/
theorem isHexChar_not_space (c : Char) (h : isHexChar c = true) : isSpaceChar c = false := by
  simp only [isHexChar, decide_eq_true_eq] at h
  simp only [isSpaceChar, decide_eq_false_iff_not]
  omega

/-- `bytes.fromhex` whitespace skipping is the identity on all-hex text. -/
theorem filter_hex_eq_self (l : List Char) (h : l.all isHexChar = true) :
    l.filter (fun c => !isSpaceChar c) = l := by
  rw [List.filter_eq_self]
  intro a ha
  have hx := List.all_eq_true.mp h a ha
  simp [isHexChar_not_space a hx]

/-- Pair decoding fails on an odd number of characters. -/
theorem hexPairs_odd : ∀ (n : Nat) (l : List Char), l.length ≤ n → l.length % 2 = 1 →
    hexPairs l = none := by
  intro n
  induction n with
  | zero =>
    intro l hl h
    cases l with
    | nil => simp at h
    | cons a rest => simp at hl
  | succ n ih =>
    intro l hl h
    match l with
    | [] => simp at h
    | [a] => rfl
    | a :: b :: rest =>
      have h2 : rest.length % 2 = 1 := by
        simp only [List.length_cons] at h; omega
      have hl2 : rest.length ≤ n := by
        simp only [List.length_cons] at hl; omega
      by_cases hab : (isHexChar a && isHexChar b) = true
      · simp [hexPairs, hab, ih rest hl2 h2]
      · simp [hexPairs, hab]

/-- Pair decoding of a non-empty list never yields the empty byte string. -/
theorem hexPairs_ne_nil (a : Char) (l : List Char) (r : Bytes)
    (h : hexPairs (a :: l) = some r) : r ≠ [] := by
  match l with
  | [] => simp [hexPairs] at h
  | b :: rest =>
    by_cases hab : (isHexChar a && isHexChar b) = true
    · simp only [hexPairs, hab, if_true, Option.map_eq_some'] at h
      obtain ⟨l', _, rfl⟩ := h
      simp
    · simp [hexPairs, hab] at h

/-- Under the validation of `mqtt_on_command` (even length and a regex match),
either the text is pure hex and decoding cannot give an empty payload, or the
text has a trailing newline and decoding raises. -/
theorem validated_fromhex (l : List Char) (heven : l.length % 2 = 0)
    (hre : regex_hex_match l = true) :
    (l.all isHexChar = true ∧ bytes_fromhex l ≠ some []) ∨
    (l.all isHexChar = false ∧ bytes_fromhex l = none) := by
  simp only [regex_hex_match, Bool.or_eq_true, Bool.and_eq_true, Bool.not_eq_true',
    decide_eq_true_eq] at hre
  rcases hre with ⟨hne, hall⟩ | ⟨⟨hlast, hdne⟩, hdall⟩
  · left
    refine ⟨hall, ?_⟩
    rw [bytes_fromhex, filter_hex_eq_self l hall]
    cases l with
    | nil => simp at hne
    | cons a rest =>
      intro hc
      exact hexPairs_ne_nil a rest [] hc rfl
  · have hsplit : l.dropLast ++ [Char.ofNat 10] = l :=
      List.dropLast_append_getLast? (Char.ofNat 10) hlast
    right
    constructor
    · rw [← hsplit, List.all_append]
      simp [isHexChar]
    · have hodd : l.dropLast.length % 2 = 1 := by
        have : l.dropLast.length + 1 = l.length := by
          rw [← hsplit]; simp
        omega
      rw [bytes_fromhex, ← hsplit, List.filter_append, filter_hex_eq_self _ hdall]
      have hnl : (List.filter (fun c => !isSpaceChar c) [Char.ofNat 10]) = [] := by
        simp [isSpaceChar]
      rw [hnl, List.append_nil]
      exact hexPairs_odd l.dropLast.length l.dropLast le_rfl hodd

/-- C1: a Command Channel Listener invocation on a topic absent from the
subscription table appends nothing: every command queue is left unchanged. -/
theorem C1_unmatched_topic_leaves_queues (frame_payload : Bytes → Bytes)
    (subs : List (String × String)) (qs : CommandQueues) (topic msg : String) (t : Nat)
    (h : lookup_sub subs topic = none) :
    ∀ s, (mqtt_on_command frame_payload subs qs topic msg t).queues s = qs s := by
  intro s
  simp [mqtt_on_command, h]

theorem C1_unmatched_topic_leaves_queues_inst :
    lookup_sub subs1 "other" = none ∧
    (mqtt_on_command id subs1 q0 "other" "80ab" 0).queues "11" = q0 "11" :=
  ⟨by decide, C1_unmatched_topic_leaves_queues id subs1 q0 "other" "80ab" 0 (by decide) "11"⟩

/-- The retry loop never performs more attempts than the initial counter. -/
theorem retry_transactions_le (script : Nat → List GetPayloadOutcome) :
    ∀ (t i : Nat), (retry_transactions script i t).2 ≤ t := by
  intro t
  induction t with
  | zero => intro i; simp [retry_transactions]
  | succ t ih =>
    intro i
    by_cases h : (rx_inner (script i) none false).2 = true
    · simp [retry_transactions, h]
    · simp only [retry_transactions, h, if_false, Bool.false_eq_true]
      have := ih (i + 1)
      omega

/-- After an attempt whose inner loop extracts a payload, no further attempt
starts. -/
theorem retry_transactions_halt (script : Nat → List GetPayloadOutcome) :
    ∀ (t i k : Nat), (rx_inner (script (i + k)) none false).2 = true →
      (retry_transactions script i t).2 ≤ k + 1 := by
  intro t
  induction t with
  | zero => intro i k _; simp [retry_transactions]
  | succ t ih =>
    intro i k hk
    by_cases h : (rx_inner (script i) none false).2 = true
    · simp [retry_transactions, h]
    · cases k with
      | zero => rw [Nat.add_zero] at hk; exact absurd hk h
      | succ k' =>
        simp only [retry_transactions, h, if_false, Bool.false_eq_true]
        have hk' : (rx_inner (script (i + 1 + k')) none false).2 = true := by
          have : i + 1 + k' = i + (k' + 1) := by omega
          rw [this]; exact hk
        have := ih (i + 1) k' hk'
        omega

/-- The first successful attempt is the last one executed. -/
theorem retry_transactions_first (script : Nat → List GetPayloadOutcome) :
    ∀ (t i k : Nat), k < t → (rx_inner (script (i + k)) none false).2 = true →
      (∀ j, j < k → (rx_inner (script (i + j)) none false).2 = false) →
      (retry_transactions script i t).2 = k + 1 := by
  intro t
  induction t with
  | zero => intro i k hk _ _; omega
  | succ t ih =>
    intro i k hk hsucc hfail
    cases k with
    | zero =>
      rw [Nat.add_zero] at hsucc
      simp [retry_transactions, hsucc]
    | succ k' =>
      have h0 : (rx_inner (script i) none false).2 = false := by
        have := hfail 0 (by omega)
        rwa [Nat.add_zero] at this
      simp only [retry_transactions, h0, if_false, Bool.false_eq_true]
      have hs' : (rx_inner (script (i + 1 + k')) none false).2 = true := by
        have : i + 1 + k' = i + (k' + 1) := by omega
        rw [this]; exact hsucc
      have hf' : ∀ j, j < k' → (rx_inner (script (i + 1 + j)) none false).2 = false := by
        intro j hj
        have : i + 1 + j = i + (j + 1) := by omega
        rw [this]; exact hfail (j + 1) (by omega)
      rw [ih (i + 1) k' (by omega) hs' hf']

/-- C2: with `payload_ttl` starting at 4, the retry loop executes at most 4
transaction attempts; any attempt that extracts a payload halts the loop (no
later attempt is started), and the first such attempt, if among the first 4,
makes the attempt count exactly its index plus one. -/
theorem C2_retry_at_most_four (script : Nat → List GetPayloadOutcome) :
    (retry_transactions script 0 4).2 ≤ 4 ∧
    (∀ k, (rx_inner (script k) none false).2 = true →
      (retry_transactions script 0 4).2 ≤ k + 1) ∧
    (∀ k, k < 4 → (rx_inner (script k) none false).2 = true →
      (∀ j, j < k → (rx_inner (script j) none false).2 = false) →
      (retry_transactions script 0 4).2 = k + 1) := by
  refine ⟨retry_transactions_le script 4 0, ?_, ?_⟩
  · intro k hk
    exact retry_transactions_halt script 4 0 k (by simpa using hk)
  · intro k hk hsucc hfail
    exact retry_transactions_first script 4 0 k hk (by simpa using hsucc)
      (by intro j hj; simpa using hfail j hj)

theorem C2_retry_at_most_four_inst :
    (rx_inner (script1 0) none false).2 = true ∧ (retry_transactions script1 0 4).2 = 1 :=
  ⟨rfl, (C2_retry_at_most_four script1).2.2 0 (by omega) rfl
    (fun j hj => absurd hj (Nat.not_lt_zero j))⟩

/-- C3: the pause between cycles is `now % interval` seconds, not the
cadence-aligning `interval - now % interval` the specification states: at
`now = 3`, `interval = 10` the code sleeps 3 seconds, not 7. -/
theorem C3_sleep_is_now_mod_interval :
    loop_sleep 3 10 = some 3 ∧ loop_sleep 3 10 ≠ some (10 - 3 % 10) := by
  decide

/-- C5: a non-empty queue yields its head, leaving exactly the tail; an empty
queue yields the synthesized set-time payload; and a queue of `n` commands is
consumed in FIFO order over `n` consecutive cycles, leaving it empty. -/
theorem C5_fifo_one_per_cycle (set_time_payload : Bytes) (q : List Bytes) :
    (∀ p rest, q = p :: rest → poll_next_payload q set_time_payload = (p, rest)) ∧
    (q = [] → poll_next_payload q set_time_payload = (set_time_payload, [])) ∧
    poll_cycles set_time_payload q.length q = (q, []) := by
  refine ⟨?_, ?_, ?_⟩
  · rintro p rest rfl; rfl
  · rintro rfl; rfl
  · induction q with
    | nil => rfl
    | cons p rest ih => simp [poll_cycles, poll_next_payload, ih]

theorem C5_fifo_one_per_cycle_inst :
    ([[1], [2]] : List Bytes) = [1] :: [[2]] ∧
    poll_next_payload ([[1], [2]] : List Bytes) [] = ([1], [[2]]) ∧
    poll_cycles [] (List.length ([[1], [2]] : List Bytes)) [[1], [2]] = ([[1], [2]], []) :=
  ⟨rfl, (C5_fifo_one_per_cycle [] [[1], [2]]).1 [1] [[2]] rfl,
    (C5_fifo_one_per_cycle [] [[1], [2]]).2.2⟩

/-- C4: a valid command on a subscribed topic — lower-cased, macro-expanded
text of even length under 2048, all hex, decoding to bytes led by the marker
byte — appends exactly one entry, the external frame of the decoded bytes with
the marker stripped, to that inverter's queue, and no other queue changes. -/
theorem C4_valid_command_enqueued (frame_payload : Bytes → Bytes)
    (subs : List (String × String)) (qs : CommandQueues) (topic msg : String) (t : Nat)
    (ser : String) (r : Bytes)
    (hsub : lookup_sub subs topic = some ser) (hser : ser ≠ "")
    (hlen : (expand_message msg t).length < 2048)
    (heven : (expand_message msg t).length % 2 = 0)
    (hall : (expand_message msg t).all isHexChar = true)
    (hdec : bytes_fromhex (expand_message msg t) = some r)
    (hfirst : r.head? = some 0x80) :
    (mqtt_on_command frame_payload subs qs topic msg t).queues ser =
      qs ser ++ [frame_payload r.tail] ∧
    ∀ s, s ≠ ser → (mqtt_on_command frame_payload subs qs topic msg t).queues s = qs s := by
  cases r with
  | nil => simp at hfirst
  | cons b rest =>
    have hb : b = 0x80 := by simpa using hfirst
    subst hb
    have hne : expand_message msg t ≠ [] := by
      intro h0
      rw [h0] at hdec
      simp [bytes_fromhex, hexPairs] at hdec
    have hni : (expand_message msg t).isEmpty = false := by
      cases hEM : expand_message msg t with
      | nil => exact absurd hEM hne
      | cons a l => rfl
    have hre : regex_hex_match (expand_message msg t) = true := by
      simp [regex_hex_match, hni, hall]
    constructor
    · simp [mqtt_on_command, hsub, hser, hlen, heven, hre, hdec, enqueue_decoded]
    · intro s hs
      simp [mqtt_on_command, hsub, hser, hlen, heven, hre, hdec, enqueue_decoded, hs]

theorem C4_valid_command_enqueued_inst :
    bytes_fromhex (expand_message "80ab" 0) = some [128, 171] ∧
    (mqtt_on_command id subs1 q0 "hoymiles/11/command" "80ab" 0).queues "11" =
      q0 "11" ++ [id (List.tail [128, 171])] :=
  ⟨by decide, (C4_valid_command_enqueued id subs1 q0 "hoymiles/11/command" "80ab" 0 "11"
    [128, 171] (by decide) (by decide) (by decide) (by decide) (by decide) (by decide)
    (by decide)).1⟩

/-- C7: on a subscribed topic, a message whose expanded text has odd length, or
length 2048 or more, or a character outside the hex class, or whose decoded
first byte is not the marker, never enqueues: every queue is unchanged. -/
theorem C7_invalid_command_discarded (frame_payload : Bytes → Bytes)
    (subs : List (String × String)) (qs : CommandQueues) (topic msg : String) (t : Nat)
    (ser : String) (hsub : lookup_sub subs topic = some ser)
    (H : (expand_message msg t).length % 2 = 1 ∨
      2048 ≤ (expand_message msg t).length ∨
      (expand_message msg t).all isHexChar = false ∨
      (∀ r, bytes_fromhex (expand_message msg t) = some r → r.head? ≠ some 0x80)) :
    ∀ s, (mqtt_on_command frame_payload subs qs topic msg t).queues s = qs s := by
  intro s
  by_cases hser : ser = ""
  · simp [mqtt_on_command, hsub, hser]
  · by_cases hval : (expand_message msg t).length < 2048 ∧
        (expand_message msg t).length % 2 = 0 ∧
        regex_hex_match (expand_message msg t) = true
    · obtain ⟨h1, h2, h3⟩ := hval
      rcases H with H | H | H | H
      · omega
      · omega
      · rcases validated_fromhex _ h2 h3 with ⟨hall, _⟩ | ⟨_, hnone⟩
        · rw [hall] at H; exact absurd H (by simp)
        · simp [mqtt_on_command, hsub, hser, h1, h2, h3, hnone, enqueue_decoded]
      · cases hbf : bytes_fromhex (expand_message msg t) with
        | none => simp [mqtt_on_command, hsub, hser, h1, h2, h3, hbf, enqueue_decoded]
        | some r =>
          cases r with
          | nil => simp [mqtt_on_command, hsub, hser, h1, h2, h3, hbf, enqueue_decoded]
          | cons b rest =>
            have hb : ¬b = 0x80 := by
              intro hb0
              exact H (b :: rest) hbf (by simp [hb0])
            simp [mqtt_on_command, hsub, hser, h1, h2, h3, hbf, enqueue_decoded, hb]
    · simp [mqtt_on_command, hsub, hser, hval]

theorem C7_invalid_command_discarded_inst :
    (expand_message "abc" 0).length % 2 = 1 ∧
    (mqtt_on_command id subs1 q0 "hoymiles/11/command" "abc" 0).queues "11" = q0 "11" :=
  ⟨by decide, C7_invalid_command_discarded id subs1 q0 "hoymiles/11/command" "abc" 0 "11"
    (by decide) (Or.inl (by decide)) "11"⟩

/-- C9 as stated fails: the two-character message of `a` followed by a newline
passes the length, parity and regex validation (the dollar anchor of the
pattern accepts a single trailing newline), so the handler reaches
`bytes.fromhex` with a validated message that is not a hex string; decoding
raises `ValueError` and no payload is produced at all. -/
theorem C9_counterexample_trailing_newline :
    ((expand_message "a\n" 0).length < 2048 ∧ (expand_message "a\n" 0).length % 2 = 0 ∧
      regex_hex_match (expand_message "a\n" 0) = true) ∧
    (expand_message "a\n" 0).all isHexChar = false ∧
    (mqtt_on_command id subs1 q0 "hoymiles/11/command" "a\n" 0).exn = some "ValueError" := by
  decide

/-- C9 amended: for every inbound message, the access to the first decoded byte
in `mqtt_on_command` is in bounds — when validation passes, decoding either
raises `ValueError` before any indexing (trailing-newline inputs) or produces a
non-empty payload, so the handler can never raise `IndexError`. -/
theorem C9_first_byte_access_in_bounds (frame_payload : Bytes → Bytes)
    (subs : List (String × String)) (qs : CommandQueues) (topic msg : String) (t : Nat) :
    (mqtt_on_command frame_payload subs qs topic msg t).exn ≠ some "IndexError" := by
  unfold mqtt_on_command
  cases hs : lookup_sub subs topic with
  | none => simp
  | some ser =>
    by_cases hser : ser = ""
    · simp [hser]
    · by_cases hval : (expand_message msg t).length < 2048 ∧
          (expand_message msg t).length % 2 = 0 ∧
          regex_hex_match (expand_message msg t) = true
      · rcases validated_fromhex _ hval.2.1 hval.2.2 with ⟨_, hne⟩ | ⟨_, hnone⟩
        · cases hbf : bytes_fromhex (expand_message msg t) with
          | none => simp [hser, hval, hbf, enqueue_decoded]
          | some r =>
            cases r with
            | nil => exact absurd hbf hne
            | cons b rest =>
              by_cases hb : b = 0x80
              · simp [hser, hval, hbf, enqueue_decoded, hb]
              · simp [hser, hval, hbf, enqueue_decoded, hb]
        · simp [hser, hval, hnone, enqueue_decoded]
      · simp [hser, hval]

/-- The phase section publishes three values per phase. -/
theorem phase_publishes_length (tp : String) :
    ∀ (i : Nat) (l : List PhaseRec), (phase_publishes tp i l).length = 3 * l.length := by
  intro i l
  induction l generalizing i with
  | nil => rfl
  | cons p rest ih =>
    simp only [phase_publishes, List.length_cons, ih]
    omega

/-- The DC-string section publishes four values per string. -/
theorem string_publishes_length (tp : String) :
    ∀ (i : Nat) (l : List StringRec), (string_publishes tp i l).length = 4 * l.length := by
  intro i l
  induction l generalizing i with
  | nil => rfl
  | cons s rest ih =>
    simp only [string_publishes, List.length_cons, ih]
    omega

/-- The DC-string section contains the total entry of every string, at its
index, with the cumulative energy divided by 1000. -/
theorem string_publishes_total_mem (tp : String) :
    ∀ (l : List StringRec) (j i : Nat) (h : i < l.length),
      (tp ++ "/emeter-dc/" ++ toString (j + i) ++ "/total", (l.get ⟨i, h⟩).energy_total / 1000)
        ∈ string_publishes tp j l := by
  intro l
  induction l with
  | nil => intro j i h; simp at h
  | cons s rest ih =>
    intro j i h
    cases i with
    | zero =>
      rw [Nat.add_zero]
      simp only [string_publishes]
      exact List.mem_cons_self _ _
    | succ i' =>
      have heq : j + (i' + 1) = j + 1 + i' := by omega
      rw [heq]
      have hm := ih (j + 1) i' (by simpa using h)
      simp only [string_publishes]
      exact List.mem_cons_of_mem _ (List.mem_cons_of_mem _ (List.mem_cons_of_mem _
        (List.mem_cons_of_mem _ hm)))

/-- C6: the publisher performs exactly `3 * phases + 4 * strings + 2` publish
calls, and the value on each per-string total topic is that string's
cumulative energy divided by 1000. -/
theorem C6_publish_count_and_totals (inverter_ser : String) (topic : Option String)
    (d : StatusData) :
    (mqtt_send_status inverter_ser topic d).length =
      3 * d.phases.length + 4 * d.strings.length + 2 ∧
    ∀ i (h : i < d.strings.length),
      (resolve_topic inverter_ser topic ++ "/emeter-dc/" ++ toString i ++ "/total",
        (d.strings.get ⟨i, h⟩).energy_total / 1000) ∈ mqtt_send_status inverter_ser topic d := by
  constructor
  · simp only [mqtt_send_status, List.length_append, phase_publishes_length,
      string_publishes_length, List.length_cons, List.length_nil]
  · intro i h
    have hm := string_publishes_total_mem (resolve_topic inverter_ser topic) d.strings 0 i h
    rw [Nat.zero_add] at hm
    simp only [mqtt_send_status]
    exact List.mem_append_left _ (List.mem_append_right _ hm)

theorem C6_publish_count_and_totals_inst :
    (mqtt_send_status "11" none dEx).length =
      3 * dEx.phases.length + 4 * dEx.strings.length + 2 ∧
    (resolve_topic "11" none ++ "/emeter-dc/" ++ toString 0 ++ "/total",
      (dEx.strings.get ⟨0, by decide⟩).energy_total / 1000) ∈ mqtt_send_status "11" none dEx :=
  ⟨(C6_publish_count_and_totals "11" none dEx).1,
    (C6_publish_count_and_totals "11" none dEx).2 0 (by decide)⟩

/-- C8: whenever an interrupt is delivered during the poll loop, the trace ends
with the radio power-down immediately followed by the process exiting. -/
theorem C8_interrupt_powers_down_then_exits (loop_interval : Nat) (events : List MainEvent)
    (h : MainEvent.interrupt ∈ events) :
    ∃ pre, run_main loop_interval events = pre ++ [MainAction.powerDown, MainAction.sysExit] := by
  induction events with
  | nil => simp at h
  | cons e rest ih =>
    cases e with
    | interrupt => exact ⟨[], rfl⟩
    | cycle =>
      have hr : MainEvent.interrupt ∈ rest := by
        rcases List.mem_cons.mp h with h1 | h1
        · exact absurd h1 (by decide)
        · exact h1
      obtain ⟨pre, hp⟩ := ih hr
      refine ⟨MainAction.poll ::
        ((if loop_interval ≠ 0 then [MainAction.sleepAction] else []) ++ pre), ?_⟩
      simp [run_main, hp]

theorem C8_interrupt_powers_down_then_exits_inst :
    MainEvent.interrupt ∈ [MainEvent.cycle, MainEvent.interrupt] ∧
    ∃ pre, run_main 1 [MainEvent.cycle, MainEvent.interrupt] =
      pre ++ [MainAction.powerDown, MainAction.sysExit] :=
  ⟨by decide, C8_interrupt_powers_down_then_exits 1 [MainEvent.cycle, MainEvent.interrupt]
    (by decide)⟩

/-- With no bus client, the inverter setup loop raises at the first inverter
with the raw-command flag set. -/
theorem setup_inverters_raw_no_client :
    ∀ (l : List Inverter) (qs : CommandQueues) (subs : List (String × String)),
      (∃ inv ∈ l, inv.mqtt.send_raw_enabled = true) →
      setup_inverters false l qs subs =
        Except.error "AttributeError: NoneType object has no attribute subscribe" := by
  intro l
  induction l with
  | nil => intro qs subs h; simp at h
  | cons inv rest ih =>
    intro qs subs h
    by_cases hr : inv.mqtt.send_raw_enabled = true
    · simp [setup_inverters, hr]
    · have hr' : inv.mqtt.send_raw_enabled = false := by simpa using hr
      have hrest : ∃ i ∈ rest, i.mqtt.send_raw_enabled = true := by
        rcases h with ⟨i, hi, hraw⟩
        rcases List.mem_cons.mp hi with rfl | hmem
        · exact absurd hraw hr
        · exact ⟨i, hmem, hraw⟩
      simp only [setup_inverters, hr', Bool.false_eq_true, if_false]
      exact ih _ _ hrest

/-- C10: with the bus disabled and some inverter carrying the raw-command
flag, startup dereferences the absent client while subscribing and the process
dies before the poll loop starts. -/
theorem C10_disabled_bus_raw_flag_crashes (radio_ok : Bool) (cfg : AhoyConfig)
    (hradio : radio_ok = true) (hdis : cfg.mqtt.disabled = true)
    (hraw : ∃ inv ∈ cfg.inverters, inv.mqtt.send_raw_enabled = true) :
    startup radio_ok cfg =
      Except.error "AttributeError: NoneType object has no attribute subscribe" := by
  subst hradio
  have hclient : (!cfg.mqtt.disabled) = false := by rw [hdis]; rfl
  rw [startup, if_neg (show ¬(true = false) by decide), hclient,
    setup_inverters_raw_no_client cfg.inverters _ _ hraw]
  rfl

theorem C10_disabled_bus_raw_flag_crashes_inst :
    cfg1.mqtt.disabled = true ∧
    startup true cfg1 =
      Except.error "AttributeError: NoneType object has no attribute subscribe" :=
  ⟨rfl, C10_disabled_bus_raw_flag_crashes true cfg1 rfl rfl
    ⟨⟨"11", false, ⟨none, true⟩⟩, List.mem_cons_self _ _, rfl⟩⟩

end Ahoy
